import Mathlib

/-!
Verification development for the swerver static file server.

The definitions below are a shallow embedding of the request-handling
pipeline and its supporting matchers, translated from the Go sources:

  * pkg/handler/pathIsInside.go, handler.go, proxy.go
  * pkg/minimatch (balanced.go, brace_expansion.go, the matcher file)
  * pkg/swhttp/fs.go (content server: parseRange, serveContent)
  * the path_to_regexp package

Strings are modelled as lists of characters (`Str`).  Go standard library
functions used by the sources (path.Clean, strings.Split, strconv.ParseInt,
strings.TrimSpace, ...) are external collaborators and are modelled from
their documented semantics; repository code is translated line by line.
-/

set_option maxRecDepth 10000

/-- Character-list strings: the sources manipulate Go strings, modelled here
as lists of characters. -/
abbrev Str := List Char

/-- Open-brace character, written by code point to keep brace characters out
of string literals. -/
def obrace : Char := Char.ofNat 123

/-- Close-brace character, written by code point. -/
def cbrace : Char := Char.ofNat 125

/-- Sequence a list of optional values, failing if any entry is `none`. -/
def seqOpt : List (Option α) → Option (List α)
  | [] => some []
  | none :: _ => none
  | some a :: rest => (seqOpt rest).map (a :: ·)

/-- Character class of Go `unicode.IsSpace` (strings.TrimSpace trims these):
ASCII whitespace plus NEL, NBSP and the Unicode `White_Space` separators. -/
def isGoSpace (c : Char) : Bool :=
  c == ' ' || c == '\t' || c == '\n' || c.toNat == 11 || c.toNat == 12 ||
  c == '\r' || c.toNat == 0x85 || c.toNat == 0xA0 || c.toNat == 0x1680 ||
  (0x2000 ≤ c.toNat && c.toNat ≤ 0x200A) || c.toNat == 0x2028 ||
  c.toNat == 0x2029 || c.toNat == 0x202F || c.toNat == 0x205F ||
  c.toNat == 0x3000

/-- Model of Go `strings.TrimSpace`: drop leading and trailing whitespace. -/
def goTrimSpace (l : Str) : Str :=
  ((l.dropWhile isGoSpace).reverse.dropWhile isGoSpace).reverse

/-- Model of Go `strings.Split(s, sep)` for a one-character separator:
always returns at least one (possibly empty) field. -/
def splitOnChar (sep : Char) : Str → List Str
  | [] => [[]]
  | c :: rest =>
    let tail := splitOnChar sep rest
    if c == sep then [] :: tail
    else match tail with
      | [] => [[c]]
      | t :: ts => (c :: t) :: ts

/-- Helper for `splitRuns`: the accumulator holds the current field in
reverse; a run of separators acts as a single separator. -/
def splitRunsAux (sep : Char) : Str → Str → List Str
  | acc, [] => [acc.reverse]
  | acc, c :: rest =>
    if c == sep then
      match rest with
      | [] => [acc.reverse, []]
      | d :: _ =>
        if d == sep then splitRunsAux sep acc rest
        else acc.reverse :: splitRunsAux sep [] rest
    else splitRunsAux sep (c :: acc) rest

/-- Split on nonempty runs of a separator character, as the minimatch source
does with the compiled regular expression `/+`. -/
def splitRuns (sep : Char) (l : Str) : List Str :=
  splitRunsAux sep [] l

/-- Join fields with a one-character separator (Go `strings.Join`). -/
def joinChar (sep : Char) : List Str → Str
  | [] => []
  | [f] => f
  | f :: rest => f ++ sep :: joinChar sep rest

/-- Stack pass of Go `path.Clean`: process the slash-separated elements,
dropping empty and `.` elements and resolving `..` against the stack (the
accumulator holds the kept elements in reverse order). -/
def cleanSegs (rooted : Bool) (segs : List Str) : List Str :=
  segs.foldl
    (fun out seg =>
      if seg = [] ∨ seg = ['.'] then out
      else if seg = ['.', '.'] then
        match out with
        | [] => if rooted then [] else [seg]
        | top :: rest => if top = ['.', '.'] then seg :: out else rest
      else seg :: out)
    []

/-- Model of Go `path.Clean` (also `filepath.Clean` with separator '/'):
lexical simplification of a slash-separated path. -/
def goPathClean (p : Str) : Str :=
  if p = [] then ['.']
  else
    let rooted := p.head? = some '/'
    let core := joinChar '/' (cleanSegs rooted (splitOnChar '/' p)).reverse
    if rooted then '/' :: core
    else if core = [] then ['.'] else core

/-- Model of Go `filepath.Join(a, b)` on a unix separator: empty elements are
skipped and the slash-joined result is cleaned. -/
def goFilepathJoin (a b : Str) : Str :=
  if a = [] ∧ b = [] then []
  else if a = [] then goPathClean b
  else if b = [] then goPathClean a
  else goPathClean (a ++ '/' :: b)

/-- Model of Go `path.Join` restricted to two elements, as used by the
handler (`path.Join("/", value)`, `path.Join(current, related)`). -/
def goPathJoin (a b : Str) : Str := goFilepathJoin a b

/-! ### pkg/handler/pathIsInside.go -/

/-- stripTrailingSep (pathIsInside.go lines 24-26): trim trailing
`filepath.Separator` ('/' on unix). -/
def stripTrailingSep (p : Str) : Str :=
  (p.reverse.dropWhile (fun c => c == '/')).reverse

/-- pathIsInside (pathIsInside.go lines 9-22) on a non-Windows system: after
normalising trailing separators, the parent must be a prefix of the path and
the boundary character, when the path is longer, must be the separator. -/
def pathIsInside (thePath potentialParent : Str) : Bool :=
  let tp := stripTrailingSep thePath
  let pp := stripTrailingSep potentialParent
  pp.isPrefixOf tp && (tp.length == pp.length || tp.get? pp.length == some '/')

/-! ### pkg/minimatch/balanced.go -/

/-- Position of the first occurrence of a nonempty needle in a list. -/
def findSub (needle : Str) : Str → Option Nat
  | [] => if needle = [] then some 0 else none
  | c :: rest =>
    if needle.isPrefixOf (c :: rest) then some 0
    else (findSub needle rest).map (· + 1)

/-- indexOf (balanced.go lines 51-57): index of the needle at or after the
offset, or -1. -/
def goIndexOf (str needle : Str) (offset : Int) : Int :=
  match findSub needle (str.drop offset.toNat) with
  | none => -1
  | some v => Int.ofNat v + offset

/-- Loop of balanceMatchRange (balanced.go lines 71-95), fuelled.  The stack
`begs` holds pushed open positions with the most recent first; Go pops from
the end of its slice, which is the head here, and `begs[0]` is the last
element here.  Go popping an empty stack would panic; that state is
unreachable and modelled as no result. -/
def balanceRangeLoop (a b str : Str) :
    Nat → Int → Int → Int → List Int → Int → Int → Option (Int × Int)
  | 0, _, _, _, _, _, _ => none
  | fuel + 1, ai, bi, i, begs, left, right =>
    if i < 0 then (if begs ≠ [] then some (left, right) else none)
    else if i == ai then
      let begs2 := i :: begs
      let ai2 := goIndexOf str a (i + 1)
      let i2 := if ai2 < bi ∧ ai2 ≥ 0 then ai2 else bi
      balanceRangeLoop a b str fuel ai2 bi i2 begs2 left right
    else if begs.length == 1 then
      some (begs.getLastD 0, bi)
    else
      match begs with
      | [] => none
      | beg :: begs2 =>
        let lr := if beg < left then (beg, bi) else (left, right)
        let bi2 := goIndexOf str b (i + 1)
        let i2 := if ai < bi2 ∧ ai ≥ 0 then ai else bi2
        balanceRangeLoop a b str fuel ai bi2 i2 begs2 lr.1 lr.2

/-- balanceMatchRange (balanced.go lines 59-103). -/
def balanceMatchRange (a b str : Str) : Option (Int × Int) :=
  let ai := goIndexOf str a 0
  let bi := goIndexOf str b (ai + 1)
  if ai ≥ 0 ∧ bi > 0 then
    balanceRangeLoop a b str (2 * str.length + 4) ai bi ai [] (Int.ofNat str.length) 0
  else none

/-- Result record of BalancedMatch (balanced.go lines 11-17). -/
structure BalResult where
  bstart : Nat
  bend : Nat
  pre : Str
  body : Str
  post : Str
deriving DecidableEq, Repr

/-- BalancedMatch (balanced.go lines 22-49): locate the outermost balancing
open/close pair and split the string around it. -/
def balancedMatch (a b str : Str) : Option BalResult :=
  match balanceMatchRange a b str with
  | none => none
  | some se =>
    let s := se.1.toNat
    let e := se.2.toNat
    some { bstart := s, bend := e, pre := str.take s,
           body := if s + a.length > e then [] else (str.take e).drop (s + a.length),
           post := if e + b.length > str.length then [] else str.drop (e + b.length) }

/-! ### pkg/minimatch/brace_expansion.go -/

/-- The NUL character used in the escape sentinels. -/
def nulChar : Char := Char.ofNat 0

/-- Sentinel for an escaped backslash.  The source suffixes each sentinel
with a run-time random number (brace_expansion.go lines 12-18); the number
only serves to avoid collisions with input text and is modelled as 0. -/
def escSlash : Str := nulChar :: 'S' :: 'L' :: 'A' :: 'S' :: 'H' :: '0' :: [nulChar]

/-- Sentinel for an escaped open brace. -/
def escOpen : Str := nulChar :: 'O' :: 'P' :: 'E' :: 'N' :: '0' :: [nulChar]

/-- Sentinel for an escaped close brace. -/
def escClose : Str := nulChar :: 'C' :: 'L' :: 'O' :: 'S' :: 'E' :: '0' :: [nulChar]

/-- Sentinel for an escaped comma. -/
def escComma : Str := nulChar :: 'C' :: 'O' :: 'M' :: 'M' :: 'A' :: '0' :: [nulChar]

/-- Sentinel for an escaped period. -/
def escPeriod : Str := nulChar :: 'P' :: 'E' :: 'R' :: 'I' :: 'O' :: 'D' :: '0' :: [nulChar]

/-- Replace every non-overlapping occurrence of a nonempty needle, left to
right (Go strings.Split followed by strings.Join), fuelled. -/
def replaceAllSub : Nat → Str → Str → Str → Str
  | 0, _, _, hay => hay
  | fuel + 1, needle, repl, hay =>
    match findSub needle hay with
    | none => hay
    | some i =>
      hay.take i ++ repl ++ replaceAllSub fuel needle repl (hay.drop (i + needle.length))

/-- Convenience wrapper supplying enough fuel for `replaceAllSub`. -/
def replaceAll (needle repl hay : Str) : Str :=
  replaceAllSub (hay.length + 1) needle repl hay

/-- escapeBraces (brace_expansion.go lines 43-51). -/
def escapeBraces (str : Str) : Str :=
  let str := replaceAll ['\\', '\\'] escSlash str
  let str := replaceAll ['\\', obrace] escOpen str
  let str := replaceAll ['\\', cbrace] escClose str
  let str := replaceAll ['\\', ','] escComma str
  replaceAll ['\\', '.'] escPeriod str

/-- unescapeBraces (brace_expansion.go lines 53-61). -/
def unescapeBraces (str : Str) : Str :=
  let str := replaceAll escSlash ['\\'] str
  let str := replaceAll escOpen [obrace] str
  let str := replaceAll escClose [cbrace] str
  let str := replaceAll escComma [','] str
  replaceAll escPeriod ['.'] str

/-- Replace the last field of a nonempty list of fields. -/
def updateLast (f : Str → Str) : List Str → List Str
  | [] => []
  | [x] => [f x]
  | x :: xs => x :: updateLast f xs

/-- parseCommaParts (brace_expansion.go lines 66-90), fuelled on the length
of the string (each recursive call runs on the strictly shorter postfix). -/
def parseCommaPartsF : Nat → Str → List Str
  | 0, str => [str]
  | fuel + 1, str =>
    if str = [] then [[]]
    else
      match balancedMatch [obrace] [cbrace] str with
      | none => splitOnChar ',' str
      | some m =>
        let p := updateLast (· ++ obrace :: m.body ++ [cbrace]) (splitOnChar ',' m.pre)
        let postParts := parseCommaPartsF fuel m.post
        if m.post.length ≠ 0 then
          match postParts with
          | [] => p
          | first :: rest => updateLast (· ++ first) p ++ rest
        else p

/-- parseCommaParts with its natural fuel. -/
def parseCommaParts (str : Str) : List Str :=
  parseCommaPartsF (str.length + 1) str

/-- Go regular expression `-?\d+` consumed from the front; returns the
remainder on success. -/
def matchSignedInt (l : Str) : Option Str :=
  let l2 := if l.head? = some '-' then l.tail else l
  let ds := l2.takeWhile Char.isDigit
  if ds = [] then none else some (l2.drop ds.length)

/-- Model of the anchored Go regular expression
`^-?\d+\.\.-?\d+(?:\.\.-?\d+)?$` (brace_expansion.go line 139). -/
def isNumericSeq (body : Str) : Bool :=
  match matchSignedInt body with
  | none => false
  | some r1 =>
    if r1.take 2 = ['.', '.'] then
      match matchSignedInt (r1.drop 2) with
      | none => false
      | some r2 =>
        r2 == [] || (r2.take 2 == ['.', '.'] &&
          (match matchSignedInt (r2.drop 2) with
           | some [] => true
           | _ => false))
    else false

/-- Model of the anchored Go regular expression
`^[a-zA-Z]\.\.[a-zA-Z](?:\.\.-?\d+)?$` (brace_expansion.go line 140). -/
def isAlphaSeq (body : Str) : Bool :=
  match body with
  | a :: '.' :: '.' :: b :: rest =>
    a.isAlpha && b.isAlpha &&
      (rest == [] || (rest.take 2 == ['.', '.'] &&
        (match matchSignedInt (rest.drop 2) with
         | some [] => true
         | _ => false)))
  | _ => false

/-- Model of the unanchored Go regular expression test `,.*\}` on a string
(brace_expansion.go line 146): a comma later followed by a close brace with
no newline in between (`.` does not match a newline in RE2). -/
def commaCloseScan : Bool → Str → Bool
  | _, [] => false
  | seen, c :: rest =>
    if c == ',' then commaCloseScan true rest
    else if c == '\n' then commaCloseScan false rest
    else if c == cbrace ∧ seen then true
    else commaCloseScan seen rest

/-- expand and its inner expansion of a list of items
(brace_expansion.go lines 130-264), fuelled; `Sum.inl` is a single `expand`
call, `Sum.inr` expands every item of a list and concatenates.

Sequences are modelled as a panic (`none`): the source computes
`n := strings.SplitAfterN(m.Body, "..", 1)`, which with count 1 returns the
body unsplit as a single element, so the subsequent `numeric(n[1])` indexes
past the end of the slice for every numeric or alpha sequence. -/
def expandCore : Nat → (Str × Bool) ⊕ List Str → Option (List Str)
  | 0, _ => none
  | _ + 1, Sum.inr [] => some []
  | fuel + 1, Sum.inr (x :: xs) =>
    match expandCore fuel (Sum.inl (x, false)), expandCore fuel (Sum.inr xs) with
    | some a, some bs => some (a ++ bs)
    | _, _ => none
  | fuel + 1, Sum.inl (str, isTop) =>
    match balancedMatch [obrace] [cbrace] str with
    | none => some [str]
    | some m =>
      if m.pre.getLast? = some '$' then some [str]
      else
        let isSequence := isNumericSeq m.body || isAlphaSeq m.body
        let isOptions := m.body.contains ','
        if ¬isSequence ∧ ¬isOptions then
          (if commaCloseScan false m.post then
            expandCore fuel (Sum.inl (m.pre ++ obrace :: m.body ++ escClose ++ m.post, false))
          else some [str])
        else if isSequence then none
        else
          let n0 := parseCommaParts m.body
          let handleTail : List Str → Option (List Str) := fun n =>
            match (if m.post.length ≠ 0 then expandCore fuel (Sum.inl (m.post, false))
                   else some [[]]) with
            | none => none
            | some post =>
              match expandCore fuel (Sum.inr n) with
              | none => none
              | some bigN =>
                some (bigN.foldr (fun nitem acc =>
                  (post.foldr (fun pitem acc2 =>
                    let e := m.pre ++ nitem ++ pitem
                    if isTop ∨ e ≠ [] then e :: acc2 else acc2) []) ++ acc) [])
          if n0.length = 1 then
            match expandCore fuel (Sum.inl (n0.headD [], false)) with
            | none => none
            | some ex =>
              let n1 := ex.map (fun item => obrace :: item ++ [cbrace])
              if n1.length = 1 then
                match (if m.post.length ≠ 0 then expandCore fuel (Sum.inl (m.post, false))
                       else some [[]]) with
                | none => none
                | some post => some (post.map (fun item => m.pre ++ n1.headD [] ++ item))
              else handleTail n1
          else handleTail n0

/-- BraceExpansion (brace_expansion.go lines 20-41); `none` models a Go
panic (see `expandCore`) or fuel exhaustion. -/
def braceExpansion (str : Str) : Option (List Str) :=
  if str.length = 0 then some []
  else
    let str2 :=
      if str.take 2 = [obrace, cbrace] then
        '\\' :: obrace :: '\\' :: cbrace :: str.drop 2
      else str
    (expandCore ((str.length + 4) * (str.length + 4)) (Sum.inl (escapeBraces str2, true))).map
      (List.map unescapeBraces)

/-! ### pkg/minimatch matcher (src/unnamed/part_003) -/

/-- Options of the minimatch matcher (part_003 lines 13-70); the debug flag
only selects a logger and is omitted. -/
structure MMOptions where
  noBrace : Bool := false
  noGlobStar : Bool := false
  dot : Bool := false
  noExt : Bool := false
  noCase : Bool := false
  noNull : Bool := false
  matchBase : Bool := false
  noComment : Bool := false
  noNegate : Bool := false
  flipNegate : Bool := false
deriving DecidableEq, Repr

/-- A compiled path segment.  `parse` (part_003 lines 326-732) compiles each
segment to a Go regular expression, with two sentinels: GLOBSTAR for `**`
and the empty regular expression `^$` for an empty segment.  A segment
containing none of the metacharacters handled by `parse`
(backslash, slash, `? * + @ !`, parentheses, pipe, square brackets) is
compiled to an anchored regular expression in which every character is
literal (special characters are backslash-escaped), which matches exactly
the segment itself; such segments are kept as `literal`.  Any other segment
is kept as `magic` and its matching is delegated to an abstract regular
expression engine, standing for Go's regexp package. -/
inductive Seg where
  | globstar : Seg
  | emptyPart : Seg
  | literal : Str → Seg
  | magic : Str → Seg
deriving DecidableEq, Repr

/-- An abstract segment-matching engine: given the glob segment source and a
path part, decide the compiled regular expression match.  This stands for
Go's regexp package applied to the output of `parse`. -/
abbrev GlobEngine := Str → Str → Bool

/-- Characters of a glob segment that `parse` does not treat as plain
literal text. -/
def globPlainChar (c : Char) : Bool :=
  !(c == '\\' || c == '/' || c == '?' || c == '*' || c == '+' || c == '@' ||
    c == '!' || c == '(' || c == ')' || c == '|' || c == '[' || c == ']')

/-- parse (part_003 lines 326-732) abstracted per `Seg`: over-long patterns
fail (dropping the row in `make`), `**` is GLOBSTAR unless disabled, the
empty segment matches only the empty part, plain segments are literals, and
anything else is delegated to the engine. -/
def parseSeg (opts : MMOptions) (s : Str) : Option Seg :=
  if s.length > 64 * 1024 then none
  else if ¬opts.noGlobStar ∧ s = ['*', '*'] then some .globstar
  else if s = [] then some .emptyPart
  else if s.all globPlainChar then some (.literal s)
  else some (.magic s)

/-- Loop of parseNegate (part_003 lines 283-292): strip leading `!`
characters, toggling the negate flag for each. -/
def parseNegateLoop : Bool → Str → Bool × Str
  | neg, '!' :: rest => parseNegateLoop (!neg) rest
  | neg, l => (neg, l)

/-- parseNegate (part_003 lines 278-293). -/
def parseNegate (opts : MMOptions) (pattern : Str) : Bool × Str :=
  if opts.noNegate then (false, pattern)
  else parseNegateLoop false pattern

/-- Model of the unanchored Go regular expression test `\{.*\}`
(braceShortcut, part_003 line 79): an open brace later followed by a close
brace with no newline in between. -/
def bracePairScan : Bool → Str → Bool
  | _, [] => false
  | opened, c :: rest =>
    if c == obrace then bracePairScan true rest
    else if c == '\n' then bracePairScan false rest
    else if c == cbrace ∧ opened then true
    else bracePairScan opened rest

/-- braceExpand (part_003 lines 307-313).  Note the guard as written in the
source: the pattern is returned unexpanded when noBrace is set or when the
pattern matches `\{.*\}` (that is, exactly when it contains a brace pair),
and `BraceExpansion` runs only on patterns without a brace pair. -/
def mmBraceExpand (opts : MMOptions) (pattern : Str) : Option (List Str) :=
  if opts.noBrace || bracePairScan false pattern then some [pattern]
  else braceExpansion pattern

/-- Compiled matcher state (part_003 lines 149-191): the comment and empty
flags, the negate flag, and the set of compiled per-segment rows. -/
structure MState where
  comment : Bool := false
  empty : Bool := false
  negate : Bool := false
  set : List (List Seg) := []
deriving DecidableEq, Repr

/-- Normal path of make (part_003 lines 240-275): strip negation, expand
braces, split each expansion on runs of slashes, compile every segment, and
keep the rows in which all segments compiled. -/
def mmMakeNormal (opts : MMOptions) (pattern : Str) : Option MState :=
  let np := parseNegate opts pattern
  match mmBraceExpand opts np.2 with
  | none => none
  | some globSet =>
    let globParts := globSet.map (splitRuns '/')
    let set := globParts.foldr
      (fun row acc =>
        match seqOpt (row.map (parseSeg opts)) with
        | some segs => if segs ≠ [] then segs :: acc else acc
        | none => acc)
      []
    some { negate := np.1, set := set }

/-- make (part_003 lines 223-276).  The comment test
`!m.options.NoComment && m.pattern[0] == '#'` runs before the
empty-pattern test, so with comments enabled the empty pattern indexes past
the end of the string and panics (`none`); with NoComment set the empty
pattern reaches the Empty branch. -/
def mmMake (opts : MMOptions) (pattern : Str) : Option MState :=
  if ¬opts.noComment then
    match pattern with
    | [] => none
    | c :: _ =>
      if c = '#' then some { comment := true }
      else mmMakeNormal opts pattern
  else if pattern = [] then some { empty := true }
  else mmMakeNormal opts pattern

/-- NewMinimatch (part_003 lines 193-214) on a non-Windows system: trim the
pattern and build the matcher state; `none` models a panic. -/
def mmNew (opts : MMOptions) (pattern : Str) : Option MState :=
  mmMake opts (goTrimSpace pattern)

/-- Match of one non-GLOBSTAR compiled segment against one path part
(part_003 line 895): the empty regular expression matches only the empty
part, a literal segment matches exactly itself, and magic segments consult
the engine.  GLOBSTAR is handled by `matchOneCore` and never reaches here. -/
def segHit (eng : GlobEngine) : Seg → Str → Bool
  | .emptyPart, f => f = []
  | .literal s, f => f = s
  | .magic s, f => eng s f
  | .globstar, _ => false

/-- File parts swallowed by a trailing `**` (part_003 lines 845-850): `.`
and `..` never match, and hidden parts only match with the dot option. -/
def globstarTailOk (opts : MMOptions) (parts : List Str) : Bool :=
  parts.all fun part =>
    !(part == ['.'] || part == ['.', '.'] ||
      (!opts.dot && part ≠ [] && part.head? == some '.'))

/-- matchOne together with its globstar swallow loop
(part_003 lines 793-933), fuelled; the Bool tag selects the swallow loop.
In the swallow loop the source tests `swallowee[0] == '.'` without a length
guard, so an empty path part (from a trailing slash) panics when the dot
option is unset; that panic is `none`. -/
def matchOneCore (eng : GlobEngine) (opts : MMOptions) (ptl : Bool) :
    Nat → Bool × List Str × List Seg → Option Bool
  | 0, _ => none
  | fuel + 1, (false, file, pattern) =>
    match file, pattern with
    | f :: fs, p :: ps =>
      match p with
      | .globstar =>
        if ps = [] then some (globstarTailOk opts (f :: fs))
        else matchOneCore eng opts ptl fuel (true, f :: fs, ps)
      | _ =>
        if segHit eng p f then matchOneCore eng opts ptl fuel (false, fs, ps)
        else some false
    | [], [] => some true
    | [], _ :: _ => some ptl
    | f :: fs, [] => some (fs = [] ∧ f = [])
  | fuel + 1, (true, file, ps) =>
    match file with
    | [] => some ptl
    | f :: fs =>
      match matchOneCore eng opts ptl fuel (false, f :: fs, ps) with
      | none => none
      | some true => some true
      | some false =>
        if f = ['.'] ∨ f = ['.', '.'] then some false
        else if ¬opts.dot ∧ f = [] then none
        else if ¬opts.dot ∧ f.head? = some '.' then some false
        else matchOneCore eng opts ptl fuel (true, fs, ps)

/-- matchOne (part_003 lines 793-933) with sufficient fuel. -/
def matchOne (eng : GlobEngine) (opts : MMOptions) (file : List Str)
    (pattern : List Seg) (ptl : Bool) : Option Bool :=
  matchOneCore eng opts ptl (2 * (file.length + pattern.length) + 4)
    (false, file, pattern)

/-- Last non-empty path part, or the empty string (part_003 lines 766-769). -/
def lastNonEmpty (l : List Str) : Str :=
  (l.reverse.dropWhile List.isEmpty).headD []

/-- Row loop of Match (part_003 lines 771-783): the first row that hits
decides; matchBase rows of length one run against the basename. -/
def mmHitLoop (eng : GlobEngine) (opts : MMOptions) (ptl : Bool)
    (fparts : List Str) (filename : Str) : List (List Seg) → Option Bool
  | [] => some false
  | row :: rest =>
    let file := if opts.matchBase ∧ row.length = 1 then [filename] else fparts
    match matchOne eng opts file row ptl with
    | none => none
    | some true => some true
    | some false => mmHitLoop eng opts ptl fparts filename rest

/-- Match (part_003 lines 734-791) on a non-Windows system. -/
def mmMatch (eng : GlobEngine) (opts : MMOptions) (st : MState) (f : Str)
    (ptl : Bool) : Option Bool :=
  if st.comment then some false
  else if st.empty then some (f = [])
  else if f = ['/'] ∧ ptl then some true
  else
    let fparts := splitRuns '/' f
    let filename := lastNonEmpty fparts
    match mmHitLoop eng opts ptl fparts filename st.set with
    | none => none
    | some true => some (if opts.flipNegate then true else !st.negate)
    | some false => some (if opts.flipNegate then false else st.negate)

/-- MatchString (part_003 lines 116-124): build the matcher for the pattern
and match the path with the partial flag unset; `none` models a panic. -/
def mmMatchString (eng : GlobEngine) (opts : MMOptions) (path pattern : Str) :
    Option Bool :=
  match mmNew opts pattern with
  | none => none
  | some st => mmMatch eng opts st path false

/-! ### path_to_regexp (src/unnamed/part_002) -/

/-- matcherParser.MatchString (part_002 lines 90-95).  The compiled regular
expression is never consulted: every path reports a match, and the capture
results are always empty. -/
def p2rMatchString (_keys : List Str) (_path : Str) : Bool × List Str :=
  (true, [])

/-- Compile (part_002 lines 307-314, marked `TODO: This needs to work` in
the source): the returned reverse-compiler ignores the parameter map and
yields the template string unchanged. -/
def p2rCompile (path : Str) : List (Str × Str) → Str :=
  fun _ => path

/-! ### pkg/handler/handler.go -/

/-- Rewrite rule of the configuration (ConfigRewrite, load_config.go). -/
structure ConfigRewrite where
  source : Str
  destination : Str
deriving DecidableEq, Repr

/-- Redirect rule of the configuration (Configuration.Redirects,
load_config.go); the Go field `Type` is `rtype` here. -/
structure ConfigRedirect where
  source : Str
  destination : Str
  rtype : Int
deriving DecidableEq, Repr

/-- slasher (handler.go lines 118-128): normalise with path.Join("/", v),
keeping a leading `!` outside the normalisation. -/
def slasher (value : Str) : Str :=
  match value with
  | '!' :: rest => '!' :: goPathJoin ['/'] rest
  | _ => goPathJoin ['/'] value

/-- Abstract per-rule matcher standing for toTarget (handler.go lines
416-443): given a rule source, destination and the previous path, produce
the rewrite target if the rule fires.  toTarget consults Go's regexp and
net/url packages (through sourceMatches with allowSegments and the
path_to_regexp stubs above); the pipeline theorems hold for every such
matcher, and concrete instances are used where a claim needs a closed
evaluation.  Note that with the part_002 stubs the real toTarget fires on
every path for which its source compiles, returning the destination
unchanged. -/
abbrev RuleMatcher := Str → Str → Str → Option Str

/-- First rule of the list fired by the matcher, with its target
(the loop of applyRewrites, handler.go lines 165-176). -/
def firstFire (tt : RuleMatcher) : List ConfigRewrite → Str → Option (ConfigRewrite × Str)
  | [], _ => none
  | r :: rest, path =>
    match tt r.source r.destination path with
    | some target => some (r, target)
    | none => firstFire tt rest path

/-- applyRewrites (handler.go lines 156-179), fuelled by the rule count.
When a rule fires, the source runs
`copy(rewritesCopy[:idx-offset], rewritesCopy[:idx-offset+1])` — a copy of
`idx` elements from the slice onto itself over identical positions, moving
nothing — and then truncates the slice by one; the recursive call therefore
receives the working list minus its LAST element, regardless of which rule
fired.  With no rules the input path is returned; with rules but no firing
rule the fallback nil is returned. -/
def applyRewritesF (tt : RuleMatcher) : Nat → Str → List ConfigRewrite → Option Str
  | 0, _, _ => none
  | fuel + 1, path, rewrites =>
    if rewrites = [] then some path
    else
      match firstFire tt rewrites path with
      | none => none
      | some rt => applyRewritesF tt fuel (slasher rt.2) rewrites.dropLast

/-- applyRewrites with its natural fuel (the recursion depth is bounded by
the rule count, since every recursive call drops one element). -/
def applyRewrites (tt : RuleMatcher) (path : Str) (rewrites : List ConfigRewrite) :
    Option Str :=
  applyRewritesF tt (rewrites.length + 1) path rewrites

/-- The sequence of rules fired by applyRewrites, in firing order: the same
recursion as `applyRewritesF`, recording the fired rule of each pass. -/
def applyRewritesFiredF (tt : RuleMatcher) : Nat → Str → List ConfigRewrite → List ConfigRewrite
  | 0, _, _ => []
  | fuel + 1, path, rewrites =>
    if rewrites = [] then []
    else
      match firstFire tt rewrites path with
      | none => []
      | some rt => rt.1 :: applyRewritesFiredF tt fuel (slasher rt.2) rewrites.dropLast

/-- Fired-rule sequence with the natural fuel. -/
def applyRewritesFired (tt : RuleMatcher) (path : Str) (rewrites : List ConfigRewrite) :
    List ConfigRewrite :=
  applyRewritesFiredF tt (rewrites.length + 1) path rewrites

/-- sourceMatches with allowSegments = false (handler.go lines 130-154):
only the minimatch check runs, on the slashed source and the cleaned
request path.  slasher never yields the empty pattern, so the minimatch
empty-pattern panic cannot occur; a panic would propagate and is defaulted
to false only for totality. -/
def sourceMatchesGlob (eng : GlobEngine) (source requestPath : Str) : Bool :=
  let slashed := slasher source
  let resolvedPath := goPathClean requestPath
  (mmMatchString eng {} resolvedPath slashed).getD false

/-- applicable (handler.go lines 258-273). -/
def applicable (eng : GlobEngine) (decodedPath : Str) (configEntry : List Str)
    (noFlag : Bool) : Bool :=
  if noFlag then false
  else if configEntry = [] then true
  else configEntry.any (fun source => sourceMatchesGlob eng source decodedPath)

/-- ensureSlashStart (handler.go lines 409-414). -/
def ensureSlashStart (target : Str) : Str :=
  match target with
  | '/' :: _ => target
  | _ => '/' :: target

/-- Clean-URL suffix stripping inside shouldRedirect (handler.go lines
209-217): strip a trailing `.html`, else a trailing `/index`. -/
def stripCleanSuffix (p : Str) : Str × Bool :=
  if ".html".data.isSuffixOf p then (p.take (p.length - 5), true)
  else if "/index".data.isSuffixOf p then (p.take (p.length - 6), true)
  else (p, false)

/-- Redirect-rule loop of shouldRedirect (handler.go lines 244-253): the
first firing rule wins; its Type is the status unless zero, in which case
the default 307 stands. -/
def redirectLoop (tt : RuleMatcher) (defaultType : Int) :
    List ConfigRedirect → Str → Option Str × Int
  | [], _ => (none, defaultType)
  | r :: rest, path =>
    match tt r.source r.destination path with
    | some target => if r.rtype = 0 then (some target, defaultType) else (some target, r.rtype)
    | none => redirectLoop tt defaultType rest path

/-- shouldRedirect (handler.go lines 195-256).  The local `slashing` is the
constant false in the source, so the trailing-slash block (lines 219-237)
is dead code and does not appear. -/
def shouldRedirect (tt : RuleMatcher) (redirects : List ConfigRedirect)
    (decodedPath : Str) (cleanUrl : Bool) : Option Str × Int :=
  let defaultType : Int := 307
  if redirects = [] ∧ ¬cleanUrl then (none, defaultType)
  else
    let sp := if cleanUrl then stripCleanSuffix decodedPath else (decodedPath, false)
    if sp.2 then (some (ensureSlashStart sp.1), defaultType)
    else redirectLoop tt defaultType redirects sp.1

/-- First step of ServeHTTP (handler.go lines 277-285): join the request
path onto the public root; reply 400 Bad Request when the result is not
inside the root, otherwise continue with the absolute path. -/
def boundaryCheck (publicRoot relativePath : Str) : Except Nat Str :=
  let absolutePath := goFilepathJoin publicRoot relativePath
  if pathIsInside absolutePath publicRoot then .ok absolutePath
  else .error 400

/-- A redirect response emitted by the pipeline. -/
structure RedirectResponse where
  location : Str
  status : Nat
deriving DecidableEq, Repr

/-- Redirect step of ServeHTTP (handler.go lines 287-294): the status
computed by shouldRedirect is discarded (`redirect, _ := ...`) and
http.Redirect is always invoked with http.StatusTemporaryRedirect (307). -/
def serveRedirectStep (eng : GlobEngine) (tt : RuleMatcher) (cleanUrls : List Str)
    (noCleanUrls : Bool) (redirects : List ConfigRedirect) (relativePath : Str) :
    Option RedirectResponse :=
  let cleanUrl := applicable eng relativePath cleanUrls noCleanUrls
  let r := shouldRedirect tt redirects relativePath cleanUrl
  match r.1 with
  | some target => some { location := target, status := 307 }
  | none => none

/-! ### pkg/handler/proxy.go -/

/-- HTTP headers: a map from canonical header name to the list of values. -/
def HHeader := String → List String

/-- The empty header map (http.NewRequest starts with no headers). -/
def emptyHeader : HHeader := fun _ => []

/-- hopHeaders (proxy.go lines 16-25). -/
def hopHeaders : List String :=
  ["Connection", "Keep-Alive", "Proxy-Authenticate", "Proxy-Authorization",
   "Te", "Trailers", "Transfer-Encoding", "Upgrade"]

/-- copyHeader (proxy.go lines 27-36): add every value of the source to the
destination, skipping keys of the omit set. -/
def copyHeader (dst src : HHeader) (omitHeaders : List String) : HHeader :=
  fun k => if omitHeaders.contains k then dst k else dst k ++ src k

/-- appendHostToXForwardHeader (proxy.go lines 38-46): set X-Forwarded-For
to the host, comma-space joined onto any prior value. -/
def appendXForward (header : HHeader) (host : String) : HHeader :=
  let host2 := match header "X-Forwarded-For" with
    | [] => host
    | prior => String.intercalate ", " prior ++ ", " ++ host
  fun k => if k = "X-Forwarded-For" then [host2] else header k

/-- A request as the proxy sees it: method, body and headers. -/
structure ProxyRequest where
  method : String
  body : String
  headers : HHeader

/-- Upstream request built by proxy.ServeHTTP (proxy.go lines 64-97):
http.NewRequest carries the method and body; client headers are copied
with `copyHeader(newreq.Header, req.Header, Set{})` — an EMPTY omit set —
and the client IP (when SplitHostPort succeeds on the remote address) is
appended to X-Forwarded-For. -/
def proxyUpstream (req : ProxyRequest) (clientIP : Option String) : ProxyRequest :=
  let h1 := copyHeader emptyHeader req.headers []
  let h2 := match clientIP with
    | some ip => appendXForward h1 ip
    | none => h1
  { method := req.method, body := req.body, headers := h2 }

/-- Response headers copied back to the client (proxy.go line 94): here the
hop-by-hop set is omitted. -/
def proxyResponseHeaders (resp : HHeader) : HHeader :=
  copyHeader emptyHeader resp hopHeaders

/-! ### pkg/swhttp/fs.go (content server) -/

/-- ASCII whitespace trimmed by Go textproto.TrimString. -/
def isASCIISpace (c : Char) : Bool :=
  c == ' ' || c == '\t' || c == '\n' || c == '\r'

/-- Model of Go textproto.TrimString. -/
def trimASCII (l : Str) : Str :=
  ((l.dropWhile isASCIISpace).reverse.dropWhile isASCIISpace).reverse

/-- Decimal digit accumulator: all characters must be ASCII digits. -/
def parseDecDigits : Nat → Str → Option Nat
  | acc, [] => some acc
  | acc, c :: cs =>
    if c.isDigit then parseDecDigits (acc * 10 + (c.toNat - 48)) cs else none

/-- Model of Go strconv.ParseInt(s, 10, 64): optional sign, at least one
digit, and the int64 range; out-of-range input is an error (the caller
treats the error as an invalid range). -/
def goParseInt (s : Str) : Option Int :=
  let neg := s.head? = some '-'
  let digits := if s.head? = some '+' ∨ s.head? = some '-' then s.tail else s
  if digits = [] then none
  else
    match parseDecDigits 0 digits with
    | none => none
    | some v =>
      let x : Int := if neg then -(Int.ofNat v) else Int.ofNat v
      if x < -(2 ^ 63) ∨ x > 2 ^ 63 - 1 then none else some x

/-- Model of Go strings.Cut at a one-character separator: the pieces before
and after the first occurrence. -/
def goCut (l : Str) (sep : Char) : Option (Str × Str) :=
  match findSub [sep] l with
  | none => none
  | some i => some (l.take i, l.drop (i + 1))

/-- Fuelled decimal printer for nonnegative numbers (digits of n). -/
def natDecCore : Nat → Nat → Str → Str
  | 0, _, acc => acc
  | fuel + 1, n, acc =>
    let d := Char.ofNat (48 + n % 10)
    if n < 10 then d :: acc else natDecCore fuel (n / 10) (d :: acc)

/-- Decimal digits of a natural number (Go %d / strconv.Itoa). -/
def natDec (n : Nat) : Str := natDecCore (n + 1) n []

/-- Decimal digits of an integer (Go %d). -/
def intDec (i : Int) : Str :=
  if i < 0 then '-' :: natDec (-i).toNat else natDec i.toNat

/-- httpRange (fs.go lines 845-847): start and length of one byte range. -/
structure HttpRange where
  start : Int
  length : Int
deriving DecidableEq, Repr

/-- httpRange.contentRange (fs.go lines 849-851):
`fmt.Sprintf("bytes %d-%d/%d", r.start, r.start+r.length-1, size)`. -/
def contentRange (r : HttpRange) (size : Int) : Str :=
  "bytes ".data ++ intDec r.start ++ '-' :: intDec (r.start + r.length - 1) ++
    '/' :: intDec size

/-- Errors of parseRange: a malformed header, or ranges that all begin past
the end of the content (errNoOverlap, fs.go line 232). -/
inductive RangeError where
  | invalid : RangeError
  | noOverlap : RangeError
deriving DecidableEq, Repr

/-- Loop of parseRange over the comma-separated specs (fs.go lines
872-932), carrying the noOverlap flag and the ranges gathered so far. -/
def parseRangeLoop (size : Int) : List Str → Bool → List HttpRange →
    Except RangeError (List HttpRange)
  | [], noOverlap, ranges =>
    if noOverlap ∧ ranges = [] then .error .noOverlap else .ok ranges
  | ra0 :: rest, noOverlap, ranges =>
    let ra := trimASCII ra0
    if ra = [] then parseRangeLoop size rest noOverlap ranges
    else
      match goCut ra '-' with
      | none => .error .invalid
      | some se =>
        let startS := trimASCII se.1
        let endS := trimASCII se.2
        if startS = [] then
          if endS = [] ∨ endS.head? = some '-' then .error .invalid
          else
            match goParseInt endS with
            | none => .error .invalid
            | some i =>
              if i < 0 then .error .invalid
              else
                let i2 := if i > size then size else i
                parseRangeLoop size rest noOverlap
                  (ranges ++ [{ start := size - i2, length := i2 }])
        else
          match goParseInt startS with
          | none => .error .invalid
          | some i =>
            if i < 0 then .error .invalid
            else if i ≥ size then parseRangeLoop size rest true ranges
            else if endS = [] then
              parseRangeLoop size rest noOverlap
                (ranges ++ [{ start := i, length := size - i }])
            else
              match goParseInt endS with
              | none => .error .invalid
              | some j =>
                if i > j then .error .invalid
                else
                  let j2 := if j ≥ size then size - 1 else j
                  parseRangeLoop size rest noOverlap
                    (ranges ++ [{ start := i, length := j2 - i + 1 }])

/-- parseRange (fs.go lines 862-934): an absent header yields no ranges; a
header without the `bytes=` prefix is invalid; otherwise the specs are the
comma-separated pieces after the prefix. -/
def parseRange (s : Str) (size : Int) : Except RangeError (List HttpRange) :=
  if s = [] then .ok []
  else if ¬("bytes=".data.isPrefixOf s) then .error .invalid
  else parseRangeLoop size (splitOnChar ',' (s.drop 6)) false []

/-- sumRangesSize (fs.go lines 958-963). -/
def sumRangesSize (ranges : List HttpRange) : Int :=
  ranges.foldl (fun a r => a + r.length) 0

/-- Response descriptor of the range-handling portion of serveContent. -/
structure RangeResponse where
  status : Nat
  contentRangeHdr : Option Str
  sendSize : Int
  multipart : Bool
deriving DecidableEq, Repr

/-- Range portion of serveContent (fs.go lines 276-355) for a request that
passed the precondition checks, with the Content-Type determined and a
nonnegative size.  A parse error answers 416 (http.Error with
StatusRequestedRangeNotSatisfiable), with Content-Range `bytes */size`
exactly in the errNoOverlap case; if the ranges sum past the content size
the range header is ignored; one range answers 206 with its Content-Range
and sends that range's length; several ranges answer 206 as multipart (not
modelled further); no range answers 200 with the whole content.  For a GET
the body is written by io.CopyN(w, sendContent, sendSize), which copies
exactly sendSize bytes when the ranges lie inside the content, so sendSize
is the body length. -/
def rangeStage (rangeReq : Str) (size : Int) : RangeResponse :=
  match parseRange rangeReq size with
  | .error e =>
    { status := 416,
      contentRangeHdr :=
        if e = RangeError.noOverlap then some ("bytes */".data ++ intDec size) else none,
      sendSize := 0, multipart := false }
  | .ok ranges0 =>
    let ranges := if sumRangesSize ranges0 > size then [] else ranges0
    match ranges with
    | [ra] =>
      { status := 206, contentRangeHdr := some (contentRange ra size),
        sendSize := ra.length, multipart := false }
    | [] =>
      { status := 200, contentRangeHdr := none, sendSize := size, multipart := false }
    | _ =>
      { status := 206, contentRangeHdr := none, sendSize := 0, multipart := true }

/-! ### Definitions supporting the claim statements -/

/-- Specification reading of the served-file invariant (claim C1): the
normalized absolute path of the served file has the public root as a prefix
at a path-separator boundary. -/
def insideRootSpec (f r : Str) : Prop :=
  ∃ rest, stripTrailingSep f = stripTrailingSep r ++ rest ∧
    (rest = [] ∨ rest.head? = some '/')

/-- A segment engine that rejects everything; literal, empty and globstar
segments never consult the engine, so any engine gives the same answer on
patterns without magic characters. -/
def falseEngine : GlobEngine := fun _ _ => false

/-- A segment engine that accepts everything (see `falseEngine`). -/
def trueEngine : GlobEngine := fun _ _ => true

/-- toTarget as realised through the part_002 stubs, for rules whose source
compiles and whose destination parses as a schemeless URL:
matcherParser.MatchString reports a match unconditionally with no captures,
and Compile returns the destination unchanged, so the rule always fires
with the destination as target. -/
def stubRuleMatcher : RuleMatcher := fun _ dest _ => some dest

/-- Rewrite rule `/a -> /a` used as a concrete input. -/
def rwA : ConfigRewrite := { source := "/a".data, destination := "/a".data }

/-- Rewrite rule `/z -> /zz` used as a concrete input. -/
def rwZ : ConfigRewrite := { source := "/z".data, destination := "/zz".data }

/-- Redirect rule `/old -> /new` with status type 301. -/
def red301 : ConfigRedirect :=
  { source := "/old".data, destination := "/new".data, rtype := 301 }

/-- The glob pattern `a{b,c}d`, built from code points to keep braces out of
string literals. -/
def patACD : Str := 'a' :: obrace :: 'b' :: ',' :: 'c' :: cbrace :: ['d']

/-- The X-Forwarded-For value produced by the proxy: the client IP,
comma-space joined onto any prior value. -/
def xffJoin (prior : List String) (host : String) : String :=
  match prior with
  | [] => host
  | _ => String.intercalate ", " prior ++ ", " ++ host

/-- Concrete client headers for the proxy claim: one hop-by-hop header, one
prior X-Forwarded-For and one end-to-end header. -/
def exClientHeaders : HHeader := fun k =>
  if k = "Connection" then ["keep-alive"]
  else if k = "X-Forwarded-For" then ["9.9.9.9"]
  else if k = "Accept" then ["text/html"]
  else []

/-- Concrete proxied request for the proxy claim. -/
def exProxyRequest : ProxyRequest :=
  { method := "GET", body := "payload", headers := exClientHeaders }

/-- Decimal value accumulation, the pure form of `parseDecDigits`. -/
def decVal (acc : Nat) (xs : Str) : Nat :=
  xs.foldl (fun a c => a * 10 + (c.toNat - 48)) acc

/-- A byte-range spec whose first-byte position parses and lies at or past
the content size: exactly the specs that drive parseRange's noOverlap flag
(fs.go lines 906-911). -/
def specStartsPastEnd (size : Int) (spec : Str) : Bool :=
  match goCut (trimASCII spec) '-' with
  | none => false
  | some se =>
    let s := trimASCII se.1
    if s = [] then false
    else
      match goParseInt s with
      | none => false
      | some i => decide (0 ≤ i ∧ size ≤ i)

/-! ### Helper lemmas and claim theorems -/

/-- pathIsInside decides exactly the specification reading of the
inside-the-root invariant: the root is a prefix of the path at a
path-separator boundary, on trailing-separator-normalized paths. -/
theorem pathIsInside_iff (f r : Str) :
    pathIsInside f r = true ↔ insideRootSpec f r := by
  unfold pathIsInside insideRootSpec
  constructor
  · intro h
    simp only [Bool.and_eq_true, Bool.or_eq_true, beq_iff_eq] at h
    obtain ⟨hpre, hrest⟩ := h
    rw [List.isPrefixOf_iff_prefix] at hpre
    obtain ⟨t, ht⟩ := hpre
    refine ⟨t, ht.symm, ?_⟩
    rcases hrest with hlen | hget
    · left
      have h2 : (stripTrailingSep r ++ t).length = (stripTrailingSep r).length := by
        rw [ht]; omega
      simp only [List.length_append] at h2
      have : t.length = 0 := by omega
      exact List.length_eq_zero.mp this
    · right
      rw [← ht, List.get?_append_right (by omega), Nat.sub_self] at hget
      cases t with
      | nil => simp at hget
      | cons c cs => simpa using hget
  · rintro ⟨rest, heq, hd⟩
    simp only [Bool.and_eq_true, Bool.or_eq_true, beq_iff_eq]
    constructor
    · rw [List.isPrefixOf_iff_prefix]
      exact ⟨rest, heq.symm⟩
    · rcases hd with h | h
      · left; rw [heq, h]; simp
      · right
        rw [heq, List.get?_append_right (by omega), Nat.sub_self]
        cases rest with
        | nil => simp at h
        | cons c cs => simpa using h

/-- C1: for every request path and public root, if the boundary step of the
pipeline proceeds to serve an absolute path, that path has the root as a
prefix at a path-separator boundary (on normalized paths); and when the
joined path is not inside the public root the pipeline replies
400 Bad Request. -/
theorem boundary_check_sound (publicRoot relativePath : Str) :
    (∀ f, boundaryCheck publicRoot relativePath = .ok f → insideRootSpec f publicRoot) ∧
    (pathIsInside (goFilepathJoin publicRoot relativePath) publicRoot = false →
      boundaryCheck publicRoot relativePath = .error 400) := by
  unfold boundaryCheck
  constructor
  · intro f hf
    by_cases h : pathIsInside (goFilepathJoin publicRoot relativePath) publicRoot = true
    · simp only [h, if_true] at hf
      cases hf
      exact (pathIsInside_iff _ _).mp h
    · simp only [Bool.not_eq_true] at h
      simp [h] at hf
  · intro h
    simp [h]

/-- Witness for C1 at the public root /x/y and request path /z: the check
proceeds with /x/y/z, which lies inside the root. -/
theorem boundary_check_sound_witness :
    boundaryCheck "/x/y".data "/z".data = Except.ok "/x/y/z".data ∧
    insideRootSpec "/x/y/z".data "/x/y".data :=
  ⟨by rfl, (boundary_check_sound "/x/y".data "/z".data).1 "/x/y/z".data (by rfl)⟩
/-- parseNegate's loop leaves a pattern without a leading bang unchanged. -/
theorem parseNegateLoop_no_bang (b : Bool) (G : Str) (h : G.head? ≠ some '!') :
    parseNegateLoop b G = (b, G) := by
  cases G with
  | nil => rfl
  | cons c cs =>
    unfold parseNegateLoop
    split
    · rename_i heq
      simp at h
      cases heq
      exact absurd rfl h
    · rfl

/-- If dropWhile leaves a nonempty list unchanged, its head fails the
predicate. -/
theorem dropWhile_cons_self {p : Char → Bool} {c : Char} {cs : Str}
    (h : (c :: cs).dropWhile p = c :: cs) : p c = false := by
  by_contra hp
  simp only [Bool.not_eq_false] at hp
  rw [List.dropWhile_cons_of_pos hp] at h
  have hlen := congrArg List.length h
  simp at hlen
  have hle := (show List.dropWhile p cs <:+ cs from List.dropWhile_suffix p).length_le
  omega

/-- A string without leading or trailing whitespace is its own trim. -/
theorem goTrimSpace_self (G : Str)
    (h1 : G.dropWhile isGoSpace = G) (h2 : G.reverse.dropWhile isGoSpace = G.reverse) :
    goTrimSpace G = G := by
  unfold goTrimSpace
  rw [h1, h2, List.reverse_reverse]

/-- Prepending a bang to a nonempty trimmed string stays trimmed. -/
theorem goTrimSpace_bang (G : Str) (hnil : G ≠ [])
    (h2 : G.reverse.dropWhile isGoSpace = G.reverse) :
    goTrimSpace ('!' :: G) = '!' :: G := by
  unfold goTrimSpace
  rw [List.dropWhile_cons_of_neg (by decide)]
  have hrev : ('!' :: G).reverse = G.reverse ++ ['!'] := by simp
  rw [hrev]
  cases hG : G.reverse with
  | nil => simp at hG; exact absurd hG hnil
  | cons c cs =>
    have hc : isGoSpace c = false :=
      dropWhile_cons_self (show (c :: cs).dropWhile isGoSpace = c :: cs by
        rw [← hG, h2, hG])
    rw [List.cons_append, List.dropWhile_cons_of_neg (by simp [hc])]
    rw [← List.cons_append, ← hG]
    simp

/-- C8 (amended): for every engine, options with flipNegate and NoNegate
unset, glob G and path P, matching against "!" ++ G gives the complement of
matching against G — including agreement on panics — provided G is
nonempty, has no leading '!', carries no leading or trailing whitespace
(strings.TrimSpace would otherwise trim G and "!" ++ G differently), and
does not begin with '#' while comments are enabled (a comment pattern
matches nothing, but its negation is an ordinary pattern). -/
theorem glob_negation_roundtrip (eng : GlobEngine) (opts : MMOptions) (G P : Str)
    (hflip : opts.flipNegate = false) (hneg : opts.noNegate = false)
    (hnil : G ≠ []) (hbang : G.head? ≠ some '!')
    (hws1 : G.dropWhile isGoSpace = G)
    (hws2 : G.reverse.dropWhile isGoSpace = G.reverse)
    (hcomment : opts.noComment = true ∨ G.head? ≠ some '#') :
    mmMatchString eng opts P ('!' :: G) =
      (mmMatchString eng opts P G).map (fun b => !b) := by
  unfold mmMatchString mmNew
  rw [goTrimSpace_self G hws1 hws2, goTrimSpace_bang G hnil hws2]
  obtain ⟨c, cs, rfl⟩ : ∃ c cs, G = c :: cs := by
    cases G with
    | nil => exact absurd rfl hnil
    | cons c cs => exact ⟨c, cs, rfl⟩
  have hG1 : mmMake opts (c :: cs) = mmMakeNormal opts (c :: cs) := by
    unfold mmMake
    rcases hcomment with hnc | hch
    · rw [hnc]; simp
    · simp only [List.head?] at hch
      have hcc : (c = '#') = False := by
        simp only [eq_iff_iff, iff_false]
        intro hc; exact hch (by rw [hc])
      by_cases hnc : opts.noComment
      · simp [hnc]
      · simp [hnc, hcc]
  have hG2 : mmMake opts ('!' :: c :: cs) = mmMakeNormal opts ('!' :: c :: cs) := by
    unfold mmMake
    by_cases hnc : opts.noComment
    · simp [hnc]
    · simp [hnc]
  rw [hG1, hG2]
  have hpn1 : parseNegate opts (c :: cs) = (false, c :: cs) := by
    unfold parseNegate
    rw [hneg]
    simp only [Bool.false_eq_true, if_false]
    exact parseNegateLoop_no_bang false (c :: cs) hbang
  have hpn2 : parseNegate opts ('!' :: c :: cs) = (true, c :: cs) := by
    unfold parseNegate
    rw [hneg]
    simp only [Bool.false_eq_true, if_false]
    show parseNegateLoop false ('!' :: c :: cs) = (true, c :: cs)
    rw [parseNegateLoop]
    exact parseNegateLoop_no_bang true (c :: cs) hbang
  unfold mmMakeNormal
  simp only [hpn1, hpn2]
  cases hbe : mmBraceExpand opts (c :: cs) with
  | none => simp [hbe]
  | some gs =>
    simp only [hbe]
    unfold mmMatch
    simp only [hflip, Bool.not_true, Bool.not_false, Bool.false_eq_true, and_false, if_false]
    split
    · rfl
    · rfl
    · rfl

/-- Witness for the amended C8 at G = "a", P = "a" with default options. -/
theorem glob_negation_roundtrip_witness :
    mmMatchString falseEngine {} "a".data ('!' :: "a".data) =
      (mmMatchString falseEngine {} "a".data "a".data).map (fun b => !b) :=
  glob_negation_roundtrip falseEngine {} "a".data "a".data rfl rfl (by decide)
    (by decide) (by decide) (by decide) (Or.inr (by decide))

/-- C8 (counterexample): for the comment pattern G = "#a" and path P = "#a",
match(G, P) and match("!" ++ G, P) are both false — G is a comment and
matches nothing, while "!" ++ G is an ordinary negated pattern that hits P —
so match(G, P) is not the negation of match("!" ++ G, P).  The pattern
compiles to literal segments, so the abstract engine is irrelevant; both a
rejecting and an accepting engine are shown. -/
theorem glob_negation_comment_counterexample :
    mmMatchString falseEngine {} "#a".data "#a".data = some false ∧
    mmMatchString falseEngine {} "#a".data ('!' :: "#a".data) = some false ∧
    mmMatchString trueEngine {} "#a".data ('!' :: "#a".data) = some false ∧
    ¬ (mmMatchString falseEngine {} "#a".data "#a".data =
        (mmMatchString falseEngine {} "#a".data ('!' :: "#a".data)).map (fun b => !b)) := by
  decide

/-- Copying into fresh headers with an empty omit set is the identity. -/
theorem copyHeader_empty_nil (h : HHeader) (k : String) :
    copyHeader emptyHeader h [] k = h k := by
  unfold copyHeader emptyHeader
  simp

/-- C9 (amended): the upstream request built by the reverse proxy carries
the client's method and body; its headers are the client headers copied
verbatim — hop-by-hop headers included, since the omit set passed at the
request-building call is empty — except that X-Forwarded-For is set to the
client IP, comma-space joined onto any prior value (so it ends with the
client IP).  The hop-by-hop set is applied only when copying the upstream
RESPONSE headers back to the client, where those headers are dropped. -/
theorem proxy_upstream_request (req : ProxyRequest) (ip : String) :
    (proxyUpstream req (some ip)).method = req.method ∧
    (proxyUpstream req (some ip)).body = req.body ∧
    (∀ k, k ≠ "X-Forwarded-For" → (proxyUpstream req (some ip)).headers k = req.headers k) ∧
    (proxyUpstream req (some ip)).headers "X-Forwarded-For" =
      [xffJoin (req.headers "X-Forwarded-For") ip] ∧
    (∀ resp : HHeader, ∀ k, hopHeaders.contains k = true → proxyResponseHeaders resp k = []) := by
  refine ⟨rfl, rfl, ?_, ?_, ?_⟩
  · intro k hk
    show appendXForward (copyHeader emptyHeader req.headers []) ip k = req.headers k
    unfold appendXForward
    simp only [if_neg hk]
    exact copyHeader_empty_nil req.headers k
  · show appendXForward (copyHeader emptyHeader req.headers []) ip "X-Forwarded-For" =
      [xffJoin (req.headers "X-Forwarded-For") ip]
    unfold appendXForward xffJoin
    simp only [if_pos rfl]
    rw [copyHeader_empty_nil req.headers "X-Forwarded-For"]
    cases req.headers "X-Forwarded-For" <;> rfl
  · intro resp k hk
    unfold proxyResponseHeaders copyHeader emptyHeader
    rw [hk]
    simp

/-- Witness for the amended C9: an end-to-end header of the concrete
request is forwarded unchanged. -/
theorem proxy_upstream_request_witness :
    (proxyUpstream exProxyRequest (some "1.2.3.4")).headers "Accept" =
      exProxyRequest.headers "Accept" :=
  (proxy_upstream_request exProxyRequest "1.2.3.4").2.2.1 "Accept" (by decide)

/-- C9 (counterexample): the hop-by-hop header Connection of the concrete
client request is still present on the upstream request, so the claim that
all hop-by-hop headers are removed from the upstream request fails. -/
theorem proxy_hop_header_forwarded :
    (proxyUpstream exProxyRequest (some "1.2.3.4")).headers "Connection" = ["keep-alive"] ∧
    hopHeaders.contains "Connection" = true ∧
    (["keep-alive"] : List String) ≠ [] := by
  refine ⟨?_, by decide, by decide⟩
  show appendXForward (copyHeader emptyHeader exProxyRequest.headers []) "1.2.3.4" "Connection"
    = ["keep-alive"]
  rfl

/-- The fired-rule sequence of applyRewrites is bounded by the rule count:
every pass drops one element from the working list, so rewrite resolution
terminates after at most N rule applications for N configured rules, for
every rule matcher and path. -/
theorem applyRewritesFiredF_length_le (tt : RuleMatcher) :
    ∀ fuel path rules, (applyRewritesFiredF tt fuel path rules).length ≤ rules.length := by
  intro fuel
  induction fuel with
  | zero =>
    intro path rules
    simp [applyRewritesFiredF]
  | succ n ih =>
    intro path rules
    unfold applyRewritesFiredF
    by_cases h : rules = []
    · simp [h]
    · rw [if_neg h]
      cases hf : firstFire tt rules path with
      | none => simp
      | some rt =>
        simp only [List.length_cons]
        have h1 := ih (slasher rt.2) rules.dropLast
        have h2 : rules.dropLast.length = rules.length - 1 := List.length_dropLast rules
        have h3 : rules.length ≠ 0 := by
          intro h0
          exact h (List.length_eq_zero.mp h0)
        omega

/-- C2: with the rewrite rules [/a -> /a, /z -> /zz] and the request path
/q, rule /a -> /a fires twice (the matcher here is toTarget as realised
through the part_002 stubs, which fires every rule): after the first pass
the working list loses its LAST rule /z -> /zz — not the rule that fired —
so the same first rule fires again on the recursive call. -/
theorem applyRewrites_refires_rule :
    applyRewritesFired stubRuleMatcher "/q".data [rwA, rwZ] = [rwA, rwA] ∧
    applyRewrites stubRuleMatcher "/q".data [rwA, rwZ] = some "/a".data ∧
    rwA ≠ rwZ := by decide

/-- C3: for the redirect rule /old -> /new with type 301 and the request
path /old, shouldRedirect computes status 301 from the rule, but the
ServeHTTP call site discards it and redirects with 307. -/
theorem redirect_status_discarded :
    red301.rtype = 301 ∧
    shouldRedirect stubRuleMatcher [red301] "/old".data true = (some "/new".data, 301) ∧
    serveRedirectStep falseEngine stubRuleMatcher [] false [red301] "/old".data =
      some { location := "/new".data, status := 307 } := by decide

/-- C4: for the template /users/:id and the parameter map [id -> 42],
Compile returns the template unchanged (its TODO stub ignores the
parameters) and MatchString reports a match with EMPTY captures, so the
round trip yields (true, {}) rather than (true, M). -/
theorem path_template_roundtrip_stubbed :
    p2rCompile "/users/:id".data [("id".data, "42".data)] = "/users/:id".data ∧
    p2rMatchString [] (p2rCompile "/users/:id".data [("id".data, "42".data)]) = (true, []) ∧
    (["42".data] : List Str) ≠ [] := by decide

/-- C5: the brace pattern a-open-b,c-close-d is NOT brace-expanded by the
matcher — braceExpand's guard returns the pattern unexpanded exactly when
it contains a brace pair — although BraceExpansion itself would produce
[abd, acd]; consequently the pattern matches only the literal path
a-open-b,c-close-d and not abd (under any engine: all segments here are
literal). -/
theorem brace_pattern_not_expanded :
    mmBraceExpand {} patACD = some [patACD] ∧
    braceExpansion patACD = some ["abd".data, "acd".data] ∧
    mmMatchString falseEngine {} "abd".data patACD = some false ∧
    mmMatchString trueEngine {} "abd".data patACD = some false ∧
    mmMatchString falseEngine {} patACD patACD = some true := by decide

/-- C10: building a matcher for the empty pattern with comments enabled
(NoComment unset, the default) panics — make indexes pattern[0] before the
empty-pattern test — modelled as none; with NoComment set the same pattern
reaches the Empty branch, and a nonempty pattern compiles, so the panic is
precisely the comment check indexing past the end of the empty pattern. -/
theorem minimatch_empty_pattern_panics :
    mmNew {} ([] : Str) = none ∧
    mmNew { noComment := true } ([] : Str) = some { empty := true } ∧
    (mmNew {} "x".data).isSome = true ∧
    mmMatchString falseEngine {} "x".data ([] : Str) = none := by decide

/-- The decimal printer's accumulator is a suffix append. -/
theorem natDecCore_acc (fuel : Nat) :
    ∀ n acc, natDecCore fuel n acc = natDecCore fuel n [] ++ acc := by
  induction fuel with
  | zero => intro n acc; rfl
  | succ f ih =>
    intro n acc
    unfold natDecCore
    by_cases h : n < 10
    · simp [h]
    · rw [if_neg h, if_neg h, ih (n / 10) (Char.ofNat (48 + n % 10) :: acc),
        ih (n / 10) [Char.ofNat (48 + n % 10)]]
      simp

/-- The decimal printer is fuel-irrelevant once the fuel exceeds n. -/
theorem natDecCore_fuel :
    ∀ fuel n, n < fuel → natDecCore fuel n [] = natDecCore (n + 1) n [] := by
  intro fuel
  induction fuel using Nat.strong_induction_on with
  | _ fuel ih =>
    intro n hn
    match fuel with
    | f + 1 =>
      unfold natDecCore
      by_cases h : n < 10
      · simp [h]
      · rw [if_neg h, if_neg h]
        have hd : n / 10 < n := Nat.div_lt_self (by omega) (by omega)
        rw [natDecCore_acc f, natDecCore_acc n]
        rw [ih f (by omega) (n / 10) (by omega), ih n (by omega) (n / 10) hd]

/-- Unfolding equation of the decimal printer. -/
theorem natDec_eq (n : Nat) :
    natDec n = if n < 10 then [Char.ofNat (48 + n % 10)]
      else natDec (n / 10) ++ [Char.ofNat (48 + n % 10)] := by
  unfold natDec
  by_cases h : n < 10
  · simp [natDecCore, h]
  · rw [if_neg h]
    show natDecCore (n + 1) n [] = _
    unfold natDecCore
    rw [if_neg h]
    have hd : n / 10 < n := Nat.div_lt_self (by omega) (by omega)
    rw [natDecCore_acc n, natDecCore_fuel n (n / 10) hd]
    rfl

/-- Decimal digits of a number are never empty. -/
theorem natDec_ne_nil (n : Nat) : natDec n ≠ [] := by
  rw [natDec_eq]
  by_cases h : n < 10 <;> simp [h]

/-- A decimal digit character is an ASCII digit. -/
theorem digit_char_isDigit (m : Nat) (h : m < 10) :
    (Char.ofNat (48 + m)).isDigit = true := by
  interval_cases m <;> decide

/-- Code point of a decimal digit character. -/
theorem digit_char_toNat (m : Nat) (h : m < 10) :
    (Char.ofNat (48 + m)).toNat = 48 + m := by
  interval_cases m <;> decide

/-- Every character of a printed decimal is an ASCII digit. -/
theorem natDec_digits (n : Nat) : ∀ c ∈ natDec n, c.isDigit = true := by
  induction n using Nat.strong_induction_on with
  | _ n ih =>
    intro c hc
    rw [natDec_eq] at hc
    by_cases h : n < 10
    · rw [if_pos h] at hc
      simp only [List.mem_singleton] at hc
      subst hc
      exact digit_char_isDigit (n % 10) (by omega)
    · rw [if_neg h] at hc
      rcases List.mem_append.mp hc with h1 | h1
      · exact ih (n / 10) (Nat.div_lt_self (by omega) (by omega)) c h1
      · simp only [List.mem_singleton] at h1
        subst h1
        exact digit_char_isDigit (n % 10) (by omega)

/-- The digit parser succeeds on all-digit input with the folded value. -/
theorem parseDecDigits_all (xs : Str) :
    ∀ acc, (∀ c ∈ xs, c.isDigit = true) → parseDecDigits acc xs = some (decVal acc xs) := by
  induction xs with
  | nil => intro acc _; rfl
  | cons c cs ih =>
    intro acc h
    unfold parseDecDigits
    rw [if_pos (h c (by simp))]
    rw [ih _ (fun x hx => h x (by simp [hx]))]
    rfl

/-- The decimal fold distributes over append. -/
theorem decVal_append (acc : Nat) (xs ys : Str) :
    decVal acc (xs ++ ys) = decVal (decVal acc xs) ys := by
  unfold decVal
  rw [List.foldl_append]

/-- Folding the digits of n recovers n (shifted under the accumulator). -/
theorem decVal_natDec (n : Nat) :
    ∀ acc, decVal acc (natDec n) = acc * 10 ^ (natDec n).length + n := by
  induction n using Nat.strong_induction_on with
  | _ n ih =>
    intro acc
    rw [natDec_eq]
    by_cases h : n < 10
    · rw [if_pos h]
      show decVal acc [Char.ofNat (48 + n % 10)] = acc * 10 ^ 1 + n
      unfold decVal
      simp only [List.foldl_cons, List.foldl_nil]
      rw [digit_char_toNat (n % 10) (by omega)]
      omega
    · rw [if_neg h, decVal_append]
      have hd : n / 10 < n := Nat.div_lt_self (by omega) (by omega)
      rw [ih (n / 10) hd acc]
      show (acc * 10 ^ (natDec (n / 10)).length + n / 10) * 10 +
          ((Char.ofNat (48 + n % 10)).toNat - 48) = _
      rw [digit_char_toNat (n % 10) (by omega)]
      simp only [List.length_append, List.length_singleton]
      rw [pow_succ]
      have : n / 10 * 10 + n % 10 = n := by omega
      ring_nf
      omega

/-- Parsing the printed decimal of n yields n. -/
theorem parse_natDec (n : Nat) : parseDecDigits 0 (natDec n) = some n := by
  rw [parseDecDigits_all _ 0 (natDec_digits n), decVal_natDec n 0]
  simp

/-- The printed decimal starts with a digit character. -/
theorem natDec_head_digit (n : Nat) : ∃ c cs, natDec n = c :: cs ∧ c.isDigit = true := by
  cases h : natDec n with
  | nil => exact absurd h (natDec_ne_nil n)
  | cons c cs =>
    exact ⟨c, cs, rfl, natDec_digits n c (by rw [h]; simp)⟩

/-- Go ParseInt accepts the printed decimal of any number in int64 range. -/
theorem goParseInt_natDec (n : Nat) (h : n < 2 ^ 63) :
    goParseInt (natDec n) = some (Int.ofNat n) := by
  obtain ⟨c, cs, heq, hdig⟩ := natDec_head_digit n
  have hplus : (natDec n).head? ≠ some '+' := by
    rw [heq]
    simp only [List.head?, ne_eq, Option.some.injEq]
    intro hc; rw [hc] at hdig; exact absurd hdig (by decide)
  have hminus : (natDec n).head? ≠ some '-' := by
    rw [heq]
    simp only [List.head?, ne_eq, Option.some.injEq]
    intro hc; rw [hc] at hdig; exact absurd hdig (by decide)
  unfold goParseInt
  simp only
  rw [if_neg (show ¬((natDec n).head? = some '+' ∨ (natDec n).head? = some '-') by
    simp only [not_or]; exact ⟨hplus, hminus⟩)]
  rw [if_neg (natDec_ne_nil n), parse_natDec n]
  simp only
  rw [if_neg hminus]
  have hpow : (2 : Nat) ^ 63 = 9223372036854775808 := by norm_num
  rw [hpow] at h
  have hx : ¬((Int.ofNat n : Int) < -(2 ^ 63) ∨ (Int.ofNat n : Int) > 2 ^ 63 - 1) := by
    have hn : (Int.ofNat n : Int) = (n : Int) := rfl
    have hpz : ((2 : Int) ^ 63) = 9223372036854775808 := by norm_num
    rw [hn, hpz]
    push_neg
    omega
  rw [if_neg hx]

/-- A digit character is not whitespace, a comma or a dash. -/
theorem digit_ne_chars (c : Char) (h : c.isDigit = true) :
    isASCIISpace c = false ∧ c ≠ ',' ∧ c ≠ '-' := by
  have hv : 48 ≤ c.toNat ∧ c.toNat ≤ 57 := by
    simp only [Char.isDigit, decide_eq_true_eq, Bool.and_eq_true, ge_iff_le] at h
    exact ⟨h.1, h.2⟩
  refine ⟨?_, ?_, ?_⟩
  · unfold isASCIISpace
    have h1 : c ≠ ' ' := by intro hc; subst hc; exact absurd hv (by decide)
    have h2 : c ≠ '\t' := by intro hc; subst hc; exact absurd hv (by decide)
    have h3 : c ≠ '\n' := by intro hc; subst hc; exact absurd hv (by decide)
    have h4 : c ≠ '\r' := by intro hc; subst hc; exact absurd hv (by decide)
    simp [h1, h2, h3, h4]
  · intro hc; subst hc; exact absurd hv (by decide)
  · intro hc; subst hc; exact absurd hv (by decide)

/-- Trimming is the identity on strings without ASCII whitespace. -/
theorem trimASCII_id (l : Str) (h : ∀ c ∈ l, isASCIISpace c = false) : trimASCII l = l := by
  unfold trimASCII
  have h1 : l.dropWhile isASCIISpace = l := by
    cases l with
    | nil => rfl
    | cons c cs => exact List.dropWhile_cons_of_neg (by simp [h c (by simp)])
  rw [h1]
  have h2 : l.reverse.dropWhile isASCIISpace = l.reverse := by
    cases hr : l.reverse with
    | nil => rfl
    | cons c cs =>
      have hc : c ∈ l := by
        have hm : c ∈ l.reverse := by rw [hr]; simp
        simpa using hm
      exact List.dropWhile_cons_of_neg (by simp [h c hc])
  rw [h2, List.reverse_reverse]

/-- Splitting on an absent separator returns the whole string. -/
theorem splitOnChar_no_sep (sep : Char) (l : Str) (h : ∀ x ∈ l, x ≠ sep) :
    splitOnChar sep l = [l] := by
  induction l with
  | nil => rfl
  | cons c cs ih =>
    have hc : (c == sep) = false := by simp [h c (by simp)]
    simp only [splitOnChar, hc, Bool.false_eq_true, if_false,
      ih (fun x hx => h x (by simp [hx]))]

/-- The first dash of digits-dash-rest sits right after the digits. -/
theorem findSub_dash (xs ys : Str) (h : '-' ∉ xs) :
    findSub ['-'] (xs ++ '-' :: ys) = some xs.length := by
  induction xs with
  | nil =>
    show findSub ['-'] ('-' :: ys) = some 0
    unfold findSub
    rw [if_pos (by simp [List.isPrefixOf])]
  | cons x xs ih =>
    have hx : x ≠ '-' := by intro hc; exact h (by simp [hc])
    show findSub ['-'] (x :: (xs ++ '-' :: ys)) = some (xs.length + 1)
    unfold findSub
    rw [if_neg (by simp only [List.isPrefixOf, Bool.and_eq_true, beq_iff_eq]; exact fun hc => hx hc.1.symm)]
    rw [ih (fun hm => h (by simp [hm]))]
    rfl

/-- strings.Cut at the dash splits digits-dash-rest into its two halves. -/
theorem goCut_dash (xs ys : Str) (h : '-' ∉ xs) :
    goCut (xs ++ '-' :: ys) '-' = some (xs, ys) := by
  unfold goCut
  rw [findSub_dash xs ys h]
  have ht : (xs ++ '-' :: ys).take xs.length = xs := List.take_left xs ('-' :: ys)
  have hd : (xs ++ '-' :: ys).drop (xs.length + 1) = ys := by
    rw [show xs ++ '-' :: ys = (xs ++ ['-']) ++ ys by simp]
    rw [show xs.length + 1 = (xs ++ ['-']).length by simp]
    exact List.drop_left (xs ++ ['-']) ys
  simp only [ht, hd]

/-- Integer decimal printing agrees with natural printing on nonnegatives. -/
theorem intDec_ofNat (x : Nat) : intDec (Int.ofNat x) = natDec x := by
  unfold intDec
  rw [if_neg (by simp only [Int.ofNat_eq_natCast]; omega)]
  simp

/-- C6: for every file size S and single range a-b with a <= b < S (S within
int64), the content server's range stage answers 206 Partial Content, the
Content-Range header reads bytes a-b/S, and the number of body bytes sent
(sendSize, written by io.CopyN) is b - a + 1. -/
theorem single_range_response (a b S : Nat) (hab : a ≤ b) (hbS : b < S) (hS : S < 2 ^ 63) :
    rangeStage ("bytes=".data ++ natDec a ++ '-' :: natDec b) (Int.ofNat S) =
      { status := 206,
        contentRangeHdr :=
          some ("bytes ".data ++ natDec a ++ '-' :: natDec b ++ '/' :: natDec S),
        sendSize := Int.ofNat b - Int.ofNat a + 1,
        multipart := false } := by
  have hpa := natDec_digits a
  have hpb := natDec_digits b
  have hdashpa : '-' ∉ natDec a := fun hm => (digit_ne_chars '-' (hpa '-' hm)).2.2 rfl
  have hspace : ∀ c ∈ natDec a ++ '-' :: natDec b, isASCIISpace c = false := by
    intro c hc
    rcases List.mem_append.mp hc with h1 | h1
    · exact (digit_ne_chars c (hpa c h1)).1
    · rcases List.mem_cons.mp h1 with rfl | h2
      · decide
      · exact (digit_ne_chars c (hpb c h2)).1
  have hnocomma : ∀ x ∈ natDec a ++ '-' :: natDec b, x ≠ ',' := by
    intro x hx
    rcases List.mem_append.mp hx with h1 | h1
    · exact (digit_ne_chars x (hpa x h1)).2.1
    · rcases List.mem_cons.mp h1 with rfl | h2
      · decide
      · exact (digit_ne_chars x (hpb x h2)).2.1
  have hspa : ∀ c ∈ natDec a, isASCIISpace c = false :=
    fun c hc => (digit_ne_chars c (hpa c hc)).1
  have hspb : ∀ c ∈ natDec b, isASCIISpace c = false :=
    fun c hc => (digit_ne_chars c (hpb c hc)).1
  have hloop : parseRangeLoop (Int.ofNat S) [natDec a ++ '-' :: natDec b] false [] =
      Except.ok [{ start := Int.ofNat a, length := Int.ofNat b - Int.ofNat a + 1 }] := by
    unfold parseRangeLoop
    rw [trimASCII_id _ hspace]
    rw [if_neg (by simp)]
    rw [goCut_dash (natDec a) (natDec b) hdashpa]
    simp only
    rw [trimASCII_id _ hspa, trimASCII_id _ hspb]
    rw [if_neg (natDec_ne_nil a)]
    rw [goParseInt_natDec a (by omega)]
    simp only
    rw [if_neg (show ¬(Int.ofNat a < 0) by simp only [Int.ofNat_eq_natCast]; omega)]
    rw [if_neg (show ¬(Int.ofNat a ≥ Int.ofNat S) by simp only [Int.ofNat_eq_natCast]; omega)]
    rw [if_neg (natDec_ne_nil b)]
    rw [goParseInt_natDec b (by omega)]
    simp only
    rw [if_neg (show ¬(Int.ofNat a > Int.ofNat b) by simp only [Int.ofNat_eq_natCast]; omega)]
    rw [if_neg (show ¬(Int.ofNat b ≥ Int.ofNat S) by simp only [Int.ofNat_eq_natCast]; omega)]
    unfold parseRangeLoop
    simp
  have hparse : parseRange ("bytes=".data ++ (natDec a ++ '-' :: natDec b)) (Int.ofNat S) =
      Except.ok [{ start := Int.ofNat a, length := Int.ofNat b - Int.ofNat a + 1 }] := by
    unfold parseRange
    rw [if_neg (by simp)]
    rw [if_neg (not_not_intro
      (List.isPrefixOf_iff_prefix.mpr (List.prefix_append _ _)))]
    rw [show (6 : Nat) = ("bytes=".data).length from rfl, List.drop_left]
    rw [splitOnChar_no_sep ',' _ hnocomma]
    exact hloop
  unfold rangeStage
  rw [show "bytes=".data ++ natDec a ++ '-' :: natDec b =
    "bytes=".data ++ (natDec a ++ '-' :: natDec b) by simp]
  rw [hparse]
  simp only
  rw [if_neg (show ¬(sumRangesSize [(⟨Int.ofNat a, Int.ofNat b - Int.ofNat a + 1⟩ : HttpRange)] > Int.ofNat S) by
    unfold sumRangesSize
    simp only [List.foldl_cons, List.foldl_nil, Int.ofNat_eq_natCast]
    omega)]
  simp only
  unfold contentRange
  simp only
  rw [show Int.ofNat a + (Int.ofNat b - Int.ofNat a + 1) - 1 = Int.ofNat b by simp only [Int.ofNat_eq_natCast]; omega]
  rw [intDec_ofNat a, intDec_ofNat b, intDec_ofNat S]

/-- Witness for C6 at a = 2, b = 5, S = 10 (scenario 4 of the spec). -/
theorem single_range_response_witness :
    (2 ≤ 5 ∧ 5 < 10 ∧ 10 < 2 ^ 63) ∧
    rangeStage ("bytes=".data ++ natDec 2 ++ '-' :: natDec 5) (Int.ofNat 10) =
      { status := 206,
        contentRangeHdr :=
          some ("bytes ".data ++ natDec 2 ++ '-' :: natDec 5 ++ '/' :: natDec 10),
        sendSize := Int.ofNat 5 - Int.ofNat 2 + 1,
        multipart := false } :=
  ⟨by refine ⟨by norm_num, by norm_num, by norm_num⟩,
   single_range_response 2 5 10 (by norm_num) (by norm_num) (by norm_num)⟩

/-- parseRange's spec loop on ranges that are all empty or starting past
the content size: no range is collected, and the noOverlap error results
exactly when some spec set the noOverlap flag. -/
theorem specStartsPastEnd_loop (size : Int) :
    ∀ specs (noOv : Bool) acc,
      (∀ spec ∈ specs, trimASCII spec = [] ∨ specStartsPastEnd size spec = true) →
      parseRangeLoop size specs noOv acc =
        if (noOv || specs.any (specStartsPastEnd size)) = true ∧ acc = []
        then Except.error RangeError.noOverlap else Except.ok acc := by
  intro specs
  induction specs with
  | nil =>
    intro noOv acc _
    unfold parseRangeLoop
    simp
  | cons spec rest ih =>
    intro noOv acc h
    have hrest : ∀ sp ∈ rest, trimASCII sp = [] ∨ specStartsPastEnd size sp = true :=
      fun sp hs => h sp (by simp [hs])
    rcases h spec (by simp) with hskip | hpast
    · have hfalse : specStartsPastEnd size spec = false := by
        unfold specStartsPastEnd
        rw [hskip]
        rfl
      unfold parseRangeLoop
      rw [hskip, if_pos rfl, ih noOv acc hrest]
      simp [hfalse]
    · unfold specStartsPastEnd at hpast
      cases hcut : goCut (trimASCII spec) '-' with
      | none => rw [hcut] at hpast; exact absurd hpast (by simp)
      | some se =>
        rw [hcut] at hpast
        simp only at hpast
        by_cases hs : trimASCII se.1 = []
        · rw [if_pos hs] at hpast; exact absurd hpast (by simp)
        · rw [if_neg hs] at hpast
          cases hpi : goParseInt (trimASCII se.1) with
          | none => rw [hpi] at hpast; exact absurd hpast (by simp)
          | some i =>
            rw [hpi] at hpast
            have hi : 0 ≤ i ∧ size ≤ i := of_decide_eq_true hpast
            have hra : trimASCII spec ≠ [] := by
              intro h0
              rw [h0] at hcut
              have hnone : goCut ([] : Str) '-' = none := by decide
              rw [hnone] at hcut
              exact Option.noConfusion hcut
            unfold parseRangeLoop
            rw [if_neg hra, hcut]
            simp only
            rw [if_neg hs, hpi]
            simp only
            rw [if_neg (show ¬(i < 0) by omega)]
            rw [if_pos (show i ≥ size from hi.2)]
            rw [ih true acc hrest]
            have hp2 : specStartsPastEnd size spec = true := by
              unfold specStartsPastEnd
              rw [hcut]
              simp only
              rw [if_neg hs, hpi]
              exact hpast
            simp [hp2]

/-- C7: for every content size S and Range header bytes=... in which every
byte-range spec is empty or has a first-byte position at or past S (and at
least one of the latter exists), the content server answers 416 with
Content-Range: bytes */S. -/
theorem no_overlap_416 (rest : Str) (S : Int)
    (hall : ∀ spec ∈ splitOnChar ',' rest,
      trimASCII spec = [] ∨ specStartsPastEnd S spec = true)
    (hone : (splitOnChar ',' rest).any (specStartsPastEnd S) = true) :
    rangeStage ("bytes=".data ++ rest) S =
      { status := 416, contentRangeHdr := some ("bytes */".data ++ intDec S),
        sendSize := 0, multipart := false } := by
  unfold rangeStage parseRange
  rw [if_neg (by simp)]
  rw [if_neg (not_not_intro (List.isPrefixOf_iff_prefix.mpr (List.prefix_append _ _)))]
  rw [show (6 : Nat) = ("bytes=".data).length from rfl, List.drop_left]
  rw [specStartsPastEnd_loop S _ false [] hall]
  rw [if_pos ⟨by simp [hone], rfl⟩]
  simp

/-- Witness for C7 at Range: bytes=100- against a 10-byte file
(scenario 5 of the spec). -/
theorem no_overlap_416_witness :
    ((∀ spec ∈ splitOnChar ',' "100-".data,
        trimASCII spec = [] ∨ specStartsPastEnd 10 spec = true) ∧
      (splitOnChar ',' "100-".data).any (specStartsPastEnd 10) = true) ∧
    rangeStage ("bytes=".data ++ "100-".data) 10 =
      { status := 416, contentRangeHdr := some ("bytes */".data ++ intDec 10),
        sendSize := 0, multipart := false } :=
  ⟨⟨by decide, by decide⟩, no_overlap_416 "100-".data 10 (by decide) (by decide)⟩
